import Mathlib

set_option maxRecDepth 4000

/-!
Shallow embedding of the gentag tagging engine (gentag/__init__.py and
gentag/exceptions.py).

Objects tagged by the engine are modelled as integers (the engine treats
them as opaque hashable values; the test-suite uses integers).  A Python
set of objects is a `Finset Obj`.  Python exceptions are modelled by the
`GErr` error type threaded through `Except`; since Python side effects
survive a raised exception, every stateful operation returns
`Except GErr α × ScopeState` (the state component is meaningful even in
the error case).

The expression evaluator of the source is CPython `eval` with
`__builtins__` emptied and an `ObjectFactory` as the local namespace.  We
embed the fragment of Python expression semantics that the engine's
expression language can reach: integer literals, identifiers, parentheses
and the binary operators `& | ^ - +` with CPython's precedence
(`|` < `^` < `&` < `+`/`-`).  Name lookup goes through the local mapping
(`ObjectFactory`) exactly as CPython's LOAD_NAME does for a mapping that
never raises KeyError.  CPython's recursion limit is modelled by a fuel
parameter (`GErr.recursionError`).
-/

abbrev Obj := Int

deriving instance DecidableEq for Except

/-- Python exceptions that the engine can raise:
`valueError` (from `generate_id`), `emptyTag` (`EmptyTagError`),
`tagExpr` (`TagExpressionError`), `typeError`, `keyError`,
`attributeError`, and `recursionError` (CPython recursion limit). -/
inductive GErr where
  | valueError
  | emptyTag
  | tagExpr
  | typeError
  | keyError
  | attributeError
  | recursionError
  deriving DecidableEq, Repr

/-- `DEFAULT_TAG_NAME = 'all'` in the source. -/
def DEFAULT_TAG_NAME : String := "all"

/-- A `Tag` (gentag.Tag).  `name` is the raw user name (None for tags
built by `compose`).  `expression` is the composite expression (None when
unset).  `objectsStored` models the `objects` property slot: `some o`
when `set_property(self, 'objects', o)` has assigned it, `none` when the
getter would run.  The cached `identifier` and `id_or_expr` properties
are modelled as recomputed functions, which is equivalent because each
setter that changes their inputs also clears their caches. -/
structure Tag where
  name : Option String
  expression : Option String
  objectsStored : Option (Finset Obj)
  deriving DecidableEq

/-- The scope's registry: `TagFactory.map`, an insertion-ordered mapping
from normalized key to `Tag`. -/
structure ScopeState where
  map : List (String × Tag)
  deriving DecidableEq

/-- Characters allowed in identifiers by `generate_id`: `[a-z0-9]`. -/
def isLowerAlnum (c : Char) : Bool :=
  (97 ≤ c.toNat && c.toNat ≤ 122) || (48 ≤ c.toNat && c.toNat ≤ 57)

/-- ASCII digit test (`str.isdigit` on the normalized output). -/
def isDigitChar (c : Char) : Bool :=
  48 ≤ c.toNat && c.toNat ≤ 57

/-- `re.sub('[^a-z0-9]+', repl, value)`: replace each maximal run of
characters outside `[a-z0-9]` by `repl`.  The boolean flag records
whether we are inside such a run. -/
def subRuns (repl : List Char) : Bool → List Char → List Char
  | _, [] => []
  | inRun, c :: rest =>
    if isLowerAlnum c then c :: subRuns repl false rest
    else if inRun then subRuns repl true rest
    else repl ++ subRuns repl true rest

/-- `value.strip('_')`: drop leading and trailing underscores. -/
def stripUnderscores (l : List Char) : List Char :=
  ((l.dropWhile (fun c => c == '_')).reverse.dropWhile (fun c => c == '_')).reverse

/-- `generate_id(value, normalized)` from the source: lower-case, replace
runs of disallowed characters by nothing (`normalized`) or `'_'`, strip
underscores, raise ValueError if empty, prepend `'_'` if the first
character is a digit. -/
def generate_id (value : String) (normalized : Bool) : Except GErr String :=
  match stripUnderscores
      (subRuns (if normalized then [] else ['_']) false (value.data.map Char.toLower)) with
  | [] => .error .valueError
  | c :: cs => if isDigitChar c then .ok ⟨'_' :: c :: cs⟩ else .ok ⟨c :: cs⟩

/-- Python truthiness of an optional string attribute
(`None` and `''` are falsy). -/
def truthyStr : Option String → Bool
  | none => false
  | some s => s != ""

/-- `Tag.identifier`: `generate_id(self.name, normalized=False)` when
`self.name` is truthy, else None. -/
def identifierOf (t : Tag) : Except GErr (Option String) :=
  match t.name with
  | none => .ok none
  | some n => if n == "" then .ok none else (generate_id n false).map some

/-- Lookup in the registry's association list (Python `dict.get`). -/
def lookupMap (m : List (String × Tag)) (k : String) : Option Tag :=
  match m with
  | [] => none
  | (k2, t) :: rest => if k2 == k then some t else lookupMap rest k

/-- Replace the entry stored under key `k` (mutation of the Tag object
that the registry holds under `k`). -/
def updateMap (m : List (String × Tag)) (k : String) (t : Tag) : List (String × Tag) :=
  match m with
  | [] => []
  | (k2, u) :: rest =>
    if k2 == k then (k2, t) :: updateMap rest k t else (k2, u) :: updateMap rest k t

/-- `TagFactory.__getitem__`: normalize the name with `normalized=True`
as key; create a `Tag` with the raw name on first access.  The returned
string is the key under which the (shared) `Tag` object lives. -/
def tagLookup (s : ScopeState) (n : String) : Except GErr String × ScopeState :=
  match generate_id n true with
  | .error e => (.error e, s)
  | .ok key =>
    match lookupMap s.map key with
    | some _ => (.ok key, s)
    | none => (.ok key, ⟨s.map ++ [(key, ⟨some n, none, none⟩)]⟩)

/-- A Python value reachable by the embedded expression fragment:
an integer or a set of tagged objects. -/
inductive Value where
  | intV (i : Int)
  | setV (s : Finset Obj)
  deriving DecidableEq

/-- Python falsiness of a `Value` (`not objects` in
`ObjectFactory.__getitem__`). -/
def falsyValue : Value → Bool
  | .intV i => i == 0
  | .setV s => s == ∅

/-- Binary operators of the embedded Python fragment. -/
inductive Op where
  | orOp | xorOp | andOp | addOp | subOp
  deriving DecidableEq

/-- Abstract syntax of the embedded Python expression fragment. -/
inductive Expr where
  | lit (n : Int)
  | ident (s : String)
  | bin (op : Op) (a b : Expr)
  deriving DecidableEq

/-- Tokens of the embedded Python expression fragment. -/
inductive Tok where
  | lpar | rpar | amp | pipe | caret | minus | plus
  | intTok (n : Nat)
  | identTok (s : String)
  deriving DecidableEq

/-- First character of a Python identifier. -/
def isPyIdentStart (c : Char) : Bool :=
  (65 ≤ c.toNat && c.toNat ≤ 90) || (97 ≤ c.toNat && c.toNat ≤ 122) || c == '_'

/-- Later character of a Python identifier. -/
def isPyIdentChar (c : Char) : Bool :=
  isPyIdentStart c || isDigitChar c

/-- Decimal value of a digit run. -/
def digitsToNat (l : List Char) : Nat :=
  l.foldl (fun acc c => acc * 10 + (c.toNat - 48)) 0

/-- Tokenizer for the embedded Python fragment; any character outside the
fragment is a SyntaxError. -/
def tokenizeAux : Nat → List Char → Except GErr (List Tok)
  | 0, _ => .error .tagExpr
  | _ + 1, [] => .ok []
  | f + 1, c :: rest =>
    if c == ' ' || c == '\t' then tokenizeAux f rest
    else if c == '(' then (tokenizeAux f rest).map (Tok.lpar :: ·)
    else if c == ')' then (tokenizeAux f rest).map (Tok.rpar :: ·)
    else if c == '&' then (tokenizeAux f rest).map (Tok.amp :: ·)
    else if c == '|' then (tokenizeAux f rest).map (Tok.pipe :: ·)
    else if c == '^' then (tokenizeAux f rest).map (Tok.caret :: ·)
    else if c == '-' then (tokenizeAux f rest).map (Tok.minus :: ·)
    else if c == '+' then (tokenizeAux f rest).map (Tok.plus :: ·)
    else if isDigitChar c then
      (tokenizeAux f ((c :: rest).dropWhile isDigitChar)).map
        (Tok.intTok (digitsToNat ((c :: rest).takeWhile isDigitChar)) :: ·)
    else if isPyIdentStart c then
      (tokenizeAux f ((c :: rest).dropWhile isPyIdentChar)).map
        (Tok.identTok ⟨(c :: rest).takeWhile isPyIdentChar⟩ :: ·)
    else .error .tagExpr

/-- Tokenize a whole string. -/
def tokenize (s : String) : Except GErr (List Tok) :=
  tokenizeAux (s.length + 1) s.data

/-- Operator admitted at each precedence level, CPython order:
level 0 `|`, level 1 `^`, level 2 `&`, level 3 `+`/`-`. -/
def opAtLevel (lvl : Nat) (ts : List Tok) : Option (Op × List Tok) :=
  match lvl, ts with
  | 0, Tok.pipe :: r => some (.orOp, r)
  | 1, Tok.caret :: r => some (.xorOp, r)
  | 2, Tok.amp :: r => some (.andOp, r)
  | 3, Tok.plus :: r => some (.addOp, r)
  | 3, Tok.minus :: r => some (.subOp, r)
  | _, _ => none

mutual

/-- Precedence-climbing recursive descent for the fragment; level 4 is
the atom level (literal, identifier or parenthesized expression). -/
def parseLevel : Nat → Nat → List Tok → Except GErr (Expr × List Tok)
  | 0, _, _ => .error .tagExpr
  | f + 1, lvl, ts =>
    if lvl ≥ 4 then
      match ts with
      | Tok.intTok n :: r => .ok (.lit (Int.ofNat n), r)
      | Tok.identTok s :: r => .ok (.ident s, r)
      | Tok.lpar :: r =>
        match parseLevel f 0 r with
        | .error e => .error e
        | .ok (e, r2) =>
          match r2 with
          | Tok.rpar :: r3 => .ok (e, r3)
          | _ => .error .tagExpr
      | _ => .error .tagExpr
    else
      match parseLevel f (lvl + 1) ts with
      | .error e => .error e
      | .ok (e, r) => parseTail f lvl e r

/-- Left-associative chain of operators at one precedence level. -/
def parseTail : Nat → Nat → Expr → List Tok → Except GErr (Expr × List Tok)
  | 0, _, _, _ => .error .tagExpr
  | f + 1, lvl, acc, ts =>
    match opAtLevel lvl ts with
    | none => .ok (acc, ts)
    | some (op, r) =>
      match parseLevel f (lvl + 1) r with
      | .error e => .error e
      | .ok (rhs, r2) => parseTail f lvl (.bin op acc rhs) r2

end

/-- Parse a whole expression string of the embedded fragment; any
failure models a CPython SyntaxError. -/
def parseExprString (s : String) : Except GErr Expr :=
  match tokenize s with
  | .error e => .error e
  | .ok ts =>
    match parseLevel (8 * (ts.length + 1)) 0 ts with
    | .error e => .error e
    | .ok (e, r) => if r == [] then .ok e else .error .tagExpr

/-- CPython semantics of the fragment's binary operators: set algebra on
sets, arithmetic and bitwise operators on integers, TypeError otherwise
(also for `set + set`, which CPython rejects). -/
def applyOp : Op → Value → Value → Except GErr Value
  | .andOp, .setV a, .setV b => .ok (.setV (a ∩ b))
  | .orOp, .setV a, .setV b => .ok (.setV (a ∪ b))
  | .xorOp, .setV a, .setV b => .ok (.setV ((a \ b) ∪ (b \ a)))
  | .subOp, .setV a, .setV b => .ok (.setV (a \ b))
  | .andOp, .intV a, .intV b => .ok (.intV (Int.land a b))
  | .orOp, .intV a, .intV b => .ok (.intV (Int.lor a b))
  | .xorOp, .intV a, .intV b => .ok (.intV (Int.xor a b))
  | .addOp, .intV a, .intV b => .ok (.intV (a + b))
  | .subOp, .intV a, .intV b => .ok (.intV (a - b))
  | _, _, _ => .error .typeError

/-- The loop body of `Scope.get_all_objects`: iterate over the registry
keys; for each tag whose identifier is not `'all'` and whose expression
is falsy, take its `objects`.  For such a tag the `objects` access is the
plain branch of the getter: the stored set, or a fresh empty set bound to
the tag (`set_property`).  An identifier that raises propagates. -/
def gaoAux : List String → ScopeState → Finset Obj → Except GErr (Finset Obj) × ScopeState
  | [], s, acc => (.ok acc, s)
  | k :: ks, s, acc =>
    match lookupMap s.map k with
    | none => gaoAux ks s acc
    | some t =>
      match identifierOf t with
      | .error e => (.error e, s)
      | .ok id? =>
        if id? == some DEFAULT_TAG_NAME || truthyStr t.expression then gaoAux ks s acc
        else
          match t.objectsStored with
          | some o => gaoAux ks s (acc ∪ o)
          | none => gaoAux ks ⟨updateMap s.map k { t with objectsStored := some ∅ }⟩ acc

/-- `Scope.get_all_objects()`. -/
def getAllObjects (s : ScopeState) : Except GErr Value × ScopeState :=
  match gaoAux (s.map.map (fun p => p.1)) s ∅ with
  | (.error e, s2) => (.error e, s2)
  | (.ok v, s2) => (.ok (.setV v), s2)

/-- The mutually recursive entry points of evaluation, combined into one
fueled function: `expr` evaluates an AST node, `rname` is
`ObjectFactory.__getitem__` (resolve a variable during `eval`), `tobjs`
is the `Tag.objects` property access for the tag stored under a key, and
`eraw` is `Scope.evaluate_raw` on a string. -/
inductive Call where
  | expr (e : Expr)
  | rname (n : String)
  | tobjs (k : String)
  | eraw (src : String)

/-- One fueled interpreter for the four mutually recursive operations.
`rname`: look the tag up in the registry (creating it on first access)
and resolve its `objects`; raise `EmptyTagError` when the result is
falsy.  `tobjs`: a stored `objects` value is returned as is; otherwise
the getter runs: the default tag computes `get_all_objects`, a truthy
expression is evaluated by `evaluate_raw`, and otherwise a fresh empty
set is bound to the tag and returned.  `eraw`: parse (SyntaxError
becomes `TagExpressionError`, leaving the state untouched) and evaluate;
runtime errors propagate unchanged. -/
def run : Nat → ScopeState → Call → Except GErr Value × ScopeState
  | 0, s, _ => (.error .recursionError, s)
  | _ + 1, s, .expr (.lit n) => (.ok (.intV n), s)
  | f + 1, s, .expr (.ident n) => run f s (.rname n)
  | f + 1, s, .expr (.bin op a b) =>
    match run f s (.expr a) with
    | (.error e, s1) => (.error e, s1)
    | (.ok va, s1) =>
      match run f s1 (.expr b) with
      | (.error e, s2) => (.error e, s2)
      | (.ok vb, s2) => (applyOp op va vb, s2)
  | f + 1, s, .rname n =>
    match tagLookup s n with
    | (.error e, s1) => (.error e, s1)
    | (.ok key, s1) =>
      match run f s1 (.tobjs key) with
      | (.error e, s2) => (.error e, s2)
      | (.ok v, s2) => (if falsyValue v then .error .emptyTag else .ok v, s2)
  | f + 1, s, .tobjs key =>
    match lookupMap s.map key with
    | none => (.error .keyError, s)
    | some t =>
      match t.objectsStored with
      | some o => (.ok (.setV o), s)
      | none =>
        match identifierOf t with
        | .error e => (.error e, s)
        | .ok id? =>
          if id? == some DEFAULT_TAG_NAME then getAllObjects s
          else if truthyStr t.expression then run f s (.eraw (t.expression.getD ""))
          else (.ok (.setV ∅), ⟨updateMap s.map key { t with objectsStored := some ∅ }⟩)
  | f + 1, s, .eraw src =>
    match parseExprString src with
    | .error _ => (.error .tagExpr, s)
    | .ok ast => run f s (.expr ast)

/-- `Scope.evaluate_raw(expression)`. -/
def evaluate_raw (f : Nat) (s : ScopeState) (src : String) : Except GErr Value × ScopeState :=
  run f s (.eraw src)

/-- One step of `Scope.add_object`: `self.tags[name].objects.add(value)`.
The `objects` access runs the property; `add` then mutates the returned
set in place, which is the stored set only in the stored and plain
branches — for the default tag and for a composite tag the returned set
is a temporary, so the added value is lost. -/
def add_one (f : Nat) (s : ScopeState) (v : Obj) (n : String) : Except GErr Unit × ScopeState :=
  match tagLookup s n with
  | (.error e, s1) => (.error e, s1)
  | (.ok key, s1) =>
    match lookupMap s1.map key with
    | none => (.error .keyError, s1)
    | some t =>
      match t.objectsStored with
      | some o => (.ok (), ⟨updateMap s1.map key { t with objectsStored := some (insert v o) }⟩)
      | none =>
        match identifierOf t with
        | .error e => (.error e, s1)
        | .ok id? =>
          if id? == some DEFAULT_TAG_NAME then
            match getAllObjects s1 with
            | (.error e, s2) => (.error e, s2)
            | (.ok _, s2) => (.ok (), s2)
          else if truthyStr t.expression then
            match run f s1 (.eraw (t.expression.getD "")) with
            | (.error e, s2) => (.error e, s2)
            | (.ok _, s2) => (.ok (), s2)
          else (.ok (), ⟨updateMap s1.map key { t with objectsStored := some {v} }⟩)

/-- `Scope.define(name, value)` with a string value: set the tag's
expression, clearing its objects slot.  Returns the key of the tag. -/
def defineExpressionTag (s : ScopeState) (n : String) (e : String) :
    Except GErr String × ScopeState :=
  match tagLookup s n with
  | (.error err, s1) => (.error err, s1)
  | (.ok key, s1) =>
    match lookupMap s1.map key with
    | none => (.error .keyError, s1)
    | some t =>
      (.ok key, ⟨updateMap s1.map key { t with expression := some e, objectsStored := none }⟩)

/-- `Scope.define(name, value)` with an iterable value: store
`set(value)` as the tag's objects, clearing its expression. -/
def defineObjectsTag (s : ScopeState) (n : String) (vs : List Obj) :
    Except GErr String × ScopeState :=
  match tagLookup s n with
  | (.error err, s1) => (.error err, s1)
  | (.ok key, s1) =>
    match lookupMap s1.map key with
    | none => (.error .keyError, s1)
    | some t =>
      (.ok key,
        ⟨updateMap s1.map key { t with objectsStored := some vs.toFinset, expression := none }⟩)

/-- Python `str.isalnum`: nonempty and every character a letter or
digit. -/
def isAlnumStr (s : String) : Bool :=
  s != "" && s.data.all (fun c => isPyIdentChar c && !(c == '_'))

/-- Python `s.startswith(c)` for a single character. -/
def strStartsWith (s : String) (c : Char) : Bool :=
  match s.data with
  | [] => false
  | c2 :: _ => c2 == c

/-- Python `s.endswith(c)` for a single character. -/
def strEndsWith (s : String) (c : Char) : Bool :=
  match s.data.getLast? with
  | none => false
  | some c2 => c2 == c

/-- `Tag.id_or_expr`: the identifier when truthy; otherwise the
expression, parenthesized unless it is alphanumeric or already starts
with `'('` and ends with `')'`.  Accessing it on a tag with neither a
name nor an expression crashes (`None.isalnum`), modelled as
`attributeError`. -/
def idOrExpr (t : Tag) : Except GErr String :=
  match identifierOf t with
  | .error e => .error e
  | .ok id? =>
    if truthyStr id? then .ok (id?.getD "")
    else
      match t.expression with
      | none => .error .attributeError
      | some e =>
        if isAlnumStr e || (strStartsWith e '(' && strEndsWith e ')') then .ok e
        else .ok ("(" ++ e ++ ")")

/-- `Tag.compose(operator, other)`: a new anonymous `Tag` whose
expression is `'%s %s %s' % (self.id_or_expr, operator, other.id_or_expr)`.
The constructor does not touch the registry. -/
def compose (t1 : Tag) (op : String) (t2 : Tag) : Except GErr Tag :=
  match idOrExpr t1 with
  | .error e => .error e
  | .ok e1 =>
    match idOrExpr t2 with
    | .error e => .error e
    | .ok e2 => .ok ⟨none, some (e1 ++ " " ++ op ++ " " ++ e2), none⟩

/-- `compose` seen as an operation on a scope: the scope is passed in (it
becomes the new tag's back-reference) and comes out unchanged, because
the `Tag` constructor never inserts into the registry. -/
def composeInScope (s : ScopeState) (t1 : Tag) (op : String) (t2 : Tag) :
    Except GErr Tag × ScopeState :=
  (compose t1 op t2, s)

/-- `Tag.__and__`. -/
def tagAnd (t1 t2 : Tag) : Except GErr Tag := compose t1 "&" t2

/-- `Tag.__or__`. -/
def tagOr (t1 t2 : Tag) : Except GErr Tag := compose t1 "|" t2

/-- `Tag.__sub__`. -/
def tagSub (t1 t2 : Tag) : Except GErr Tag := compose t1 "-" t2

/-- `Tag.__xor__`. -/
def tagXor (t1 t2 : Tag) : Except GErr Tag := compose t1 "^" t2

/-- Modelled from the spec: characters the spec grammar treats as
operators (`'&'|'|'|'-'|'^'`). -/
def specOperator (c : Char) : Bool :=
  c == '&' || c == '|' || c == '-' || c == '^'

/-- Modelled from the spec: characters that cannot be part of an
IDENTIFIER token of the grammar (operators, parentheses, whitespace). -/
def specSpecial (c : Char) : Bool :=
  specOperator c || c == '(' || c == ')' || c == ' ' || c == '\t'

/-- Modelled from the spec: tokens of the spec's expression grammar. -/
inductive SpecTok where
  | op (c : Char)
  | lpar
  | rpar
  | identTok (s : String)
  deriving DecidableEq

/-- Modelled from the spec: tokenizer for the grammar
`expr := term (('&'|'|'|'-'|'^') term)*`, `term := IDENTIFIER | '(' expr ')'`,
where IDENTIFIER is a maximal nonempty run of non-special characters
(raw tag names as supplied by callers). -/
def specTokenizeAux : Nat → List Char → Option (List SpecTok)
  | 0, _ => none
  | _ + 1, [] => some []
  | f + 1, c :: rest =>
    if c == ' ' || c == '\t' then specTokenizeAux f rest
    else if c == '(' then (specTokenizeAux f rest).map (SpecTok.lpar :: ·)
    else if c == ')' then (specTokenizeAux f rest).map (SpecTok.rpar :: ·)
    else if specOperator c then (specTokenizeAux f rest).map (SpecTok.op c :: ·)
    else
      (specTokenizeAux f ((c :: rest).dropWhile (fun c2 => !specSpecial c2))).map
        (SpecTok.identTok ⟨(c :: rest).takeWhile (fun c2 => !specSpecial c2)⟩ :: ·)

mutual

/-- Modelled from the spec: `term := IDENTIFIER | '(' expr ')'`. -/
def specTerm : Nat → List SpecTok → Option (List SpecTok)
  | 0, _ => none
  | _ + 1, SpecTok.identTok _ :: r => some r
  | f + 1, SpecTok.lpar :: r =>
    match specExpr f r with
    | some (SpecTok.rpar :: r2) => some r2
    | _ => none
  | _ + 1, _ => none

/-- Modelled from the spec: `expr := term (op term)*`. -/
def specExpr : Nat → List SpecTok → Option (List SpecTok)
  | 0, _ => none
  | f + 1, ts =>
    match specTerm f ts with
    | none => none
    | some r => specChain f r

/-- Modelled from the spec: the `(op term)*` chain. -/
def specChain : Nat → List SpecTok → Option (List SpecTok)
  | 0, _ => none
  | f + 1, SpecTok.op _ :: r =>
    match specTerm f r with
    | none => none
    | some r2 => specChain f r2
  | _ + 1, ts => some ts

end

/-- Modelled from the spec: whether a string conforms to the spec's
expression grammar (tokenizes, parses as `expr`, and consumes all
input). -/
def specConforms (src : String) : Bool :=
  match specTokenizeAux (src.length + 1) src.data with
  | none => false
  | some ts =>
    match specExpr (4 * (ts.length + 1)) ts with
    | some [] => true
    | _ => false

/-- The union that `get_all_objects` is specified to compute, as a pure
function of the current registry: over the given keys, the stored
objects of every tag whose identifier is not `'all'` and whose
expression is falsy (an unset `objects` slot contributes the empty set
the getter would bind). -/
def allUnion (s : ScopeState) : List String → Finset Obj
  | [] => ∅
  | k :: ks =>
    (match lookupMap s.map k with
     | none => ∅
     | some t =>
       match identifierOf t with
       | .error _ => ∅
       | .ok id? =>
         if id? == some DEFAULT_TAG_NAME || truthyStr t.expression then ∅
         else t.objectsStored.getD ∅) ∪ allUnion s ks

/-- How evaluation may change one registered tag: `name` and
`expression` are untouched; the `objects` slot is untouched, or was
unset and received a fresh empty set from the plain branch of the getter
(which only runs for non-default tags without a truthy expression). -/
def TagCompat (t t2 : Tag) : Prop :=
  t2.name = t.name ∧ t2.expression = t.expression ∧
    (t2.objectsStored = t.objectsStored ∨
      (t.objectsStored = none ∧ t2.objectsStored = some ∅ ∧
        truthyStr t.expression = false ∧ identifierOf t ≠ .ok (some DEFAULT_TAG_NAME)))

/-- Evaluation never removes or replaces a registry entry: every tag
registered before is still registered under the same key afterwards, and
it changed at most as `TagCompat` allows. -/
def RegistryExtends (s s2 : ScopeState) : Prop :=
  ∀ k t, lookupMap s.map k = some t → ∃ t2, lookupMap s2.map k = some t2 ∧ TagCompat t t2

theorem identifierOf_eq_of_name_eq {a b : Tag} (h : b.name = a.name) :
    identifierOf b = identifierOf a := by
  unfold identifierOf
  rw [h]

theorem tagCompat_refl (t : Tag) : TagCompat t t := ⟨rfl, rfl, Or.inl rfl⟩

theorem tagCompat_trans {a b c : Tag} (h1 : TagCompat a b) (h2 : TagCompat b c) :
    TagCompat a c := by
  obtain ⟨hn1, he1, ho1⟩ := h1
  obtain ⟨hn2, he2, ho2⟩ := h2
  refine ⟨hn2.trans hn1, he2.trans he1, ?_⟩
  rcases ho1 with h | ⟨ha, hb, hte, hid⟩
  · rcases ho2 with h2 | ⟨hb2, hc2, hte2, hid2⟩
    · exact Or.inl (h2.trans h)
    · refine Or.inr ⟨h ▸ hb2, hc2, ?_, ?_⟩
      · rwa [he1] at hte2
      · rwa [identifierOf_eq_of_name_eq hn1] at hid2
  · rcases ho2 with h2 | ⟨hb2, hc2, hte2, hid2⟩
    · exact Or.inr ⟨ha, h2.trans hb, hte, hid⟩
    · rw [hb] at hb2
      exact absurd hb2 (by simp)

theorem registryExtends_refl (s : ScopeState) : RegistryExtends s s :=
  fun _ t h => ⟨t, h, tagCompat_refl t⟩

theorem registryExtends_trans {a b c : ScopeState}
    (h1 : RegistryExtends a b) (h2 : RegistryExtends b c) : RegistryExtends a c := by
  intro k t h
  obtain ⟨t2, hl2, hc2⟩ := h1 k t h
  obtain ⟨t3, hl3, hc3⟩ := h2 k t2 hl2
  exact ⟨t3, hl3, tagCompat_trans hc2 hc3⟩

theorem lookupMap_append_of_some {m : List (String × Tag)} {k : String} {t : Tag}
    (l : List (String × Tag)) (h : lookupMap m k = some t) : lookupMap (m ++ l) k = some t := by
  induction m with
  | nil => simp [lookupMap] at h
  | cons p rest ih =>
    obtain ⟨k2, u⟩ := p
    by_cases hk : k2 = k
    · subst hk
      simp [lookupMap] at h ⊢
      exact h
    · simp [lookupMap, hk] at h ⊢
      exact ih h

theorem lookupMap_update_self {m : List (String × Tag)} {k : String} {t : Tag}
    (t2 : Tag) (h : lookupMap m k = some t) : lookupMap (updateMap m k t2) k = some t2 := by
  induction m with
  | nil => simp [lookupMap] at h
  | cons p rest ih =>
    obtain ⟨k2, u⟩ := p
    by_cases hk : k2 = k
    · subst hk
      simp [lookupMap, updateMap]
    · simp [lookupMap, updateMap, hk] at h ⊢
      exact ih h

theorem lookupMap_update_of_ne {m : List (String × Tag)} {k k2 : String}
    (t2 : Tag) (h : ¬ k2 = k) : lookupMap (updateMap m k t2) k2 = lookupMap m k2 := by
  induction m with
  | nil => simp [updateMap]
  | cons p rest ih =>
    obtain ⟨k3, u⟩ := p
    by_cases hk : k3 = k
    · subst hk
      have hne : ¬ k3 = k2 := fun hc => h hc.symm
      simp [lookupMap, updateMap, hne]
      exact ih
    · by_cases hk2 : k3 = k2
      · subst hk2
        simp [lookupMap, updateMap, hk]
      · simp [lookupMap, updateMap, hk, hk2]
        exact ih

theorem registryExtends_append (s : ScopeState) (l : List (String × Tag)) :
    RegistryExtends s ⟨s.map ++ l⟩ := by
  intro k t h
  exact ⟨t, lookupMap_append_of_some l h, tagCompat_refl t⟩

theorem registryExtends_update {s : ScopeState} {k : String} {t t2 : Tag}
    (h : lookupMap s.map k = some t) (hc : TagCompat t t2) :
    RegistryExtends s ⟨updateMap s.map k t2⟩ := by
  intro k2 u hu
  by_cases hk : k2 = k
  · subst hk
    rw [h] at hu
    injection hu with hu
    subst hu
    exact ⟨t2, lookupMap_update_self t2 h, hc⟩
  · exact ⟨u, by rw [lookupMap_update_of_ne t2 hk]; exact hu, tagCompat_refl u⟩

theorem tagLookup_extends (s : ScopeState) (n : String) :
    RegistryExtends s (tagLookup s n).2 := by
  unfold tagLookup
  split
  · exact registryExtends_refl s
  · split
    · exact registryExtends_refl s
    · exact registryExtends_append s _

theorem gaoAux_extends :
    ∀ (ks : List String) (s : ScopeState) (acc : Finset Obj),
      RegistryExtends s (gaoAux ks s acc).2 := by
  intro ks
  induction ks with
  | nil => intro s acc; exact registryExtends_refl s
  | cons k ks ih =>
    intro s acc
    unfold gaoAux
    split
    · exact ih s acc
    · rename_i t hl
      split
      · exact registryExtends_refl s
      · rename_i id? hid
        split
        · exact ih s acc
        · rename_i hskip
          split
          · exact ih s _
          · rename_i hos
            rw [Bool.or_eq_true] at hskip
            rcases not_or.mp hskip with ⟨h1, h2⟩
            have hc : TagCompat t { t with objectsStored := some ∅ } := by
              refine ⟨rfl, rfl, Or.inr ⟨hos, rfl, by simpa using h2, ?_⟩⟩
              intro hcontra
              rw [hid] at hcontra
              injection hcontra with hcontra
              exact h1 (by simp [hcontra])
            exact registryExtends_trans (registryExtends_update hl hc) (ih _ acc)

theorem getAllObjects_extends (s : ScopeState) : RegistryExtends s (getAllObjects s).2 := by
  have hx := gaoAux_extends (s.map.map (fun p => p.1)) s ∅
  unfold getAllObjects
  split
  next e s2 hg =>
    rw [hg] at hx
    exact hx
  next v s2 hg =>
    rw [hg] at hx
    exact hx

theorem run_extends : ∀ (f : Nat) (s : ScopeState) (c : Call), RegistryExtends s (run f s c).2 := by
  intro f
  induction f with
  | zero => intro s c; exact registryExtends_refl s
  | succ f ih =>
    intro s c
    cases c with
    | expr e =>
      cases e with
      | lit n => exact registryExtends_refl s
      | ident n => exact ih s (.rname n)
      | bin op a b =>
        simp only [run]
        split
        next e1 s1 h1 =>
          have hx := ih s (.expr a)
          rw [h1] at hx
          exact hx
        next va s1 h1 =>
          have hx1 := ih s (.expr a)
          rw [h1] at hx1
          split
          next e2 s2 h2 =>
            have hx2 := ih s1 (.expr b)
            rw [h2] at hx2
            exact registryExtends_trans hx1 hx2
          next vb s2 h2 =>
            have hx2 := ih s1 (.expr b)
            rw [h2] at hx2
            exact registryExtends_trans hx1 hx2
    | rname n =>
      simp only [run]
      split
      next e1 s1 h1 =>
        have hx := tagLookup_extends s n
        rw [h1] at hx
        exact hx
      next key s1 h1 =>
        have hx1 := tagLookup_extends s n
        rw [h1] at hx1
        split
        next e2 s2 h2 =>
          have hx2 := ih s1 (.tobjs key)
          rw [h2] at hx2
          exact registryExtends_trans hx1 hx2
        next v s2 h2 =>
          have hx2 := ih s1 (.tobjs key)
          rw [h2] at hx2
          exact registryExtends_trans hx1 hx2
    | tobjs key =>
      simp only [run]
      split
      next hl => exact registryExtends_refl s
      next t hl =>
        split
        next o hos => exact registryExtends_refl s
        next hos =>
          split
          next e hid => exact registryExtends_refl s
          next id? hid =>
            split
            next hdef => exact getAllObjects_extends s
            next hdef =>
              split
              next hexp => exact ih s (.eraw (t.expression.getD ""))
              next hexp =>
                refine registryExtends_update hl ⟨rfl, rfl, Or.inr ⟨hos, rfl, ?_, ?_⟩⟩
                · simpa using hexp
                · intro hcontra
                  rw [hid] at hcontra
                  injection hcontra with hcontra
                  exact hdef (by simp [hcontra])
    | eraw src =>
      simp only [run]
      split
      next e hp => exact registryExtends_refl s
      next ast hp => exact ih s (.expr ast)

theorem allUnion_update_bind (ks : List String) (s : ScopeState) (k : String) (t : Tag)
    (hl : lookupMap s.map k = some t) (hos : t.objectsStored = none) :
    allUnion ⟨updateMap s.map k { t with objectsStored := some ∅ }⟩ ks = allUnion s ks := by
  induction ks with
  | nil => rfl
  | cons k2 ks ih =>
    unfold allUnion
    rw [ih]
    congr 1
    by_cases hk : k2 = k
    · subst hk
      rw [show lookupMap (ScopeState.mk (updateMap s.map k2 { t with objectsStored := some ∅ })).map k2
            = some { t with objectsStored := some ∅ } from lookupMap_update_self _ hl, hl]
      have hidc : identifierOf { t with objectsStored := some (∅ : Finset Obj) } = identifierOf t :=
        identifierOf_eq_of_name_eq rfl
      cases hid2 : identifierOf t with
      | error e => simp [hidc, hid2]
      | ok id? =>
        by_cases hskip : (id? == some DEFAULT_TAG_NAME || truthyStr t.expression) = true
        · simp [hidc, hid2, hskip]
        · simp [hidc, hid2, hskip, hos]
    · rw [show lookupMap (ScopeState.mk (updateMap s.map k { t with objectsStored := some ∅ })).map k2
            = lookupMap s.map k2 from lookupMap_update_of_ne _ hk]

theorem gaoAux_ok :
    ∀ (ks : List String) (s : ScopeState) (acc r : Finset Obj) (s2 : ScopeState),
      gaoAux ks s acc = (.ok r, s2) → r = acc ∪ allUnion s ks := by
  intro ks
  induction ks with
  | nil =>
    intro s acc r s2 h
    simp only [gaoAux, Prod.mk.injEq] at h
    obtain ⟨h1, _⟩ := h
    injection h1 with h1
    simp [allUnion, h1]
  | cons k ks ih =>
    intro s acc r s2 h
    unfold gaoAux at h
    split at h
    next hl =>
      rw [show allUnion s (k :: ks) = ∅ ∪ allUnion s ks by simp [allUnion, hl]]
      simpa using ih s acc r s2 h
    next t hl =>
      split at h
      next e hid => simp at h
      next id? hid =>
        split at h
        next hskip =>
          rw [show allUnion s (k :: ks) = ∅ ∪ allUnion s ks by simp [allUnion, hl, hid, hskip]]
          simpa using ih s acc r s2 h
        next hskip =>
          split at h
          next o hos =>
            rw [show allUnion s (k :: ks) = o ∪ allUnion s ks by
              simp [allUnion, hl, hid, hos, hskip]]
            rw [ih s (acc ∪ o) r s2 h]
            rw [Finset.union_assoc]
          next hos =>
            rw [show allUnion s (k :: ks) = ∅ ∪ allUnion s ks by
              simp [allUnion, hl, hid, hos, hskip]]
            have hx := ih _ acc r s2 h
            rw [allUnion_update_bind ks s k t hl hos] at hx
            simpa using hx

theorem lookupMap_append_fresh {m : List (String × Tag)} {k : String}
    (t : Tag) (h : lookupMap m k = none) : lookupMap (m ++ [(k, t)]) k = some t := by
  induction m with
  | nil => simp [lookupMap]
  | cons p rest ih =>
    obtain ⟨k2, u⟩ := p
    by_cases hk : k2 = k
    · subst hk
      simp [lookupMap] at h
    · simp [lookupMap, hk] at h ⊢
      exact ih h

/-- A scope holding two disjoint nonempty simple tags. -/
def sAB : ScopeState :=
  ⟨[("a", ⟨some "a", none, some {1}⟩), ("b", ⟨some "b", none, some {2}⟩)]⟩

/-- `sAB` plus a registered tag whose stored object set is empty. -/
def sABC : ScopeState :=
  ⟨[("a", ⟨some "a", none, some {1}⟩), ("b", ⟨some "b", none, some {2}⟩),
    ("c", ⟨some "c", none, some ∅⟩)]⟩

/-- Five simple tags used by the precedence scenario. -/
def sABCDX : ScopeState :=
  ⟨[("a", ⟨some "a", none, some {1}⟩), ("b", ⟨some "b", none, some {2}⟩),
    ("c", ⟨some "c", none, some {5}⟩), ("d", ⟨some "d", none, some {5}⟩),
    ("x", ⟨some "x", none, some {1, 5}⟩)]⟩

/-- A simple tag `a` and a composite tag `b` defined by the expression
`a`. -/
def sCompB : ScopeState :=
  ⟨[("a", ⟨some "a", none, some {1}⟩), ("b", ⟨some "b", some "a", none⟩)]⟩

/-- A simple tag `a` and the default tag, the latter with nothing
assigned to its objects slot. -/
def sAllPair : ScopeState :=
  ⟨[("a", ⟨some "a", none, some {1}⟩), ("all", ⟨some "all", none, none⟩)]⟩

/-- A scope where the default tag has had objects explicitly assigned
(`define('all', [7])`), next to a simple tag `a`. -/
def sAllOverride : ScopeState :=
  ⟨[("all", ⟨some "all", none, some {7}⟩), ("a", ⟨some "a", none, some {1}⟩)]⟩

/-- C1 (counterexample): the string `"1 + 1"` does not conform to the
spec grammar `expr := term (('&'|'|'|'-'|'^') term)*`, yet `evaluate_raw`
evaluates it successfully (to the integer 2, with the registry
untouched) instead of failing with `TagExpressionError`: CPython `eval`
accepts any valid Python expression, not just the set-algebra grammar. -/
theorem gentag_c1_cex :
    specConforms "1 + 1" = false ∧
    evaluate_raw 9 (ScopeState.mk []) "1 + 1" = (.ok (.intV 2), ScopeState.mk []) := by
  decide

/-- C1 (amended): evaluation fails with `TagExpressionError` exactly at
the Python parsing boundary: whenever the expression string fails to
parse as a Python expression, `evaluate_raw` raises
`TagExpressionError` and leaves the scope untouched (the SyntaxError is
raised before any evaluation side effect). -/
theorem gentag_c1_thm :
    ∀ (f : Nat) (s : ScopeState) (src : String) (e : GErr),
      parseExprString src = .error e →
      evaluate_raw (f + 1) s src = (.error .tagExpr, s) := by
  intro f s src e h
  unfold evaluate_raw
  simp only [run, h]

/-- C1 (witness): `"all - "` fails to parse, so evaluating it raises
`TagExpressionError` — the `test_syntax_error` scenario of the test
suite. -/
theorem gentag_c1_witness :
    evaluate_raw 6 (ScopeState.mk []) "all - " = (.error .tagExpr, ScopeState.mk []) :=
  gentag_c1_thm 5 (ScopeState.mk []) "all - " .tagExpr (by decide)

/-- C2 (counterexample): evaluating the expression `"a"` on an empty
scope fails with `EmptyTagError`, but the failed call has changed the
set of tags in the registry: the create-on-first-access lookup inserted
a fresh tag under the key `"a"` (with an empty set bound to it). -/
theorem gentag_c2_cex :
    (evaluate_raw 5 (ScopeState.mk []) "a").1 = .error .emptyTag ∧
    (evaluate_raw 5 (ScopeState.mk []) "a").2 =
      ScopeState.mk [("a", ⟨some "a", none, some ∅⟩)] ∧
    ScopeState.mk [("a", ⟨some "a", none, some ∅⟩)] ≠ ScopeState.mk [] := by
  decide

/-- C2 (amended): `evaluate_raw` never removes or replaces registry
entries: every tag registered before the call is still registered under
the same key afterwards (whether the call succeeds or fails), with the
same name and expression, and with its objects slot unchanged except
that an unset slot may have received the fresh empty set bound by the
getter.  New tags may however be inserted for names referenced for the
first time. -/
theorem gentag_c2_thm :
    ∀ (f : Nat) (s : ScopeState) (src k : String) (t : Tag),
      lookupMap s.map k = some t →
      ∃ t2, lookupMap ((evaluate_raw f s src).2).map k = some t2 ∧
        t2.name = t.name ∧ t2.expression = t.expression ∧
        (t2.objectsStored = t.objectsStored ∨
          (t.objectsStored = none ∧ t2.objectsStored = some ∅)) := by
  intro f s src k t h
  obtain ⟨t2, hl2, hn, he, ho⟩ := run_extends f s (.eraw src) k t h
  refine ⟨t2, hl2, hn, he, ?_⟩
  rcases ho with h1 | ⟨h1, h2, _, _⟩
  · exact Or.inl h1
  · exact Or.inr ⟨h1, h2⟩

/-- C2 (witness): after evaluating `"a & b"` on a scope holding `a` and
`b`, the tag registered under `"a"` is still there, unchanged. -/
theorem gentag_c2_witness :
    ∃ t2, lookupMap ((evaluate_raw 9 sAB "a & b").2).map "a" = some t2 ∧
      t2.name = (Tag.mk (some "a") none (some {1})).name ∧
      t2.expression = (Tag.mk (some "a") none (some {1})).expression ∧
      (t2.objectsStored = (Tag.mk (some "a") none (some {1})).objectsStored ∨
        ((Tag.mk (some "a") none (some {1})).objectsStored = none ∧
          t2.objectsStored = some ∅)) :=
  gentag_c2_thm 9 sAB "a & b" "a" ⟨some "a", none, some {1}⟩ (by decide)

/-- C3: resolving a variable through the Object Resolver raises
`EmptyTagError` exactly when the tag's resolved object set is empty
(first part), while an empty set arising from combining two nonempty
tags with an operator is returned as an ordinary empty result, not an
error (second part: the `&` node applies set intersection to whatever
the two resolutions returned, with no emptiness check). -/
theorem gentag_c3_thm :
    (∀ (f : Nat) (s s1 s2 : ScopeState) (n key : String) (o : Finset Obj),
        tagLookup s n = (.ok key, s1) →
        run f s1 (.tobjs key) = (.ok (.setV o), s2) →
        run (f + 1) s (.rname n) =
          ((if o = ∅ then .error .emptyTag else .ok (.setV o)), s2)) ∧
    (∀ (f : Nat) (s s1 s2 : ScopeState) (x y : String) (A B : Finset Obj),
        run f s (.expr (.ident x)) = (.ok (.setV A), s1) →
        run f s1 (.expr (.ident y)) = (.ok (.setV B), s2) →
        A ≠ ∅ → B ≠ ∅ →
        run (f + 1) s (.expr (.bin .andOp (.ident x) (.ident y))) =
          (.ok (.setV (A ∩ B)), s2)) := by
  constructor
  · intro f s s1 s2 n key o h1 h2
    simp only [run, h1, h2]
    by_cases ho : o = ∅
    · simp [falsyValue, ho]
    · simp [falsyValue, ho]
  · intro f s s1 s2 x y A B h1 h2 _ _
    simp only [run, h1, h2]
    rfl

/-- C3 (witness): on a scope with `a = {1}`, `b = {2}` and an empty tag
`c`, resolving `c` raises `EmptyTagError`, while `a & b` evaluates to
the empty set without an error even though both operands are
nonempty. -/
theorem gentag_c3_witness :
    run 2 sABC (.rname "c") = (.error .emptyTag, sABC) ∧
    run 4 sAB (.expr (.bin .andOp (.ident "a") (.ident "b"))) =
      (.ok (.setV ({1} ∩ {2})), sAB) ∧
    ({1} : Finset Obj) ∩ {2} = ∅ := by
  refine ⟨?_, ?_, by decide⟩
  · have h := gentag_c3_thm.1 1 sABC sABC sABC "c" "c" ∅ (by decide) (by decide)
    simpa using h
  · exact gentag_c3_thm.2 3 sAB sAB sAB "a" "b" {1} {2} (by decide) (by decide)
      (by decide) (by decide)

/-- C4 (counterexample): the claim fails for scope states where the
default tag's objects were explicitly assigned (`define('all', [7])`):
the stored value bypasses the getter, so resolving the `'all'` tag
returns the stored `{7}` while `get_all_objects` returns the union
`{1}` of the simple tags — not the same union. -/
theorem gentag_c4_cex :
    run 1 sAllOverride (.tobjs "all") = (.ok (.setV {7}), sAllOverride) ∧
    getAllObjects sAllOverride = (.ok (.setV {1}), sAllOverride) ∧
    (Value.setV {7} ≠ .setV {1}) := by
  decide

/-- C4 (amended): whenever `get_all_objects` succeeds it returns
exactly the union, over the registry, of the stored objects of every tag
whose identifier is not `'all'` and whose expression is falsy; and
provided the default tag's objects slot has not been explicitly
assigned, resolving its objects runs `get_all_objects`, hence returns
that same union. -/
theorem gentag_c4_thm :
    (∀ (s s2 : ScopeState) (v : Value),
        getAllObjects s = (.ok v, s2) →
        v = .setV (allUnion s (s.map.map (fun p => p.1)))) ∧
    (∀ (f : Nat) (s : ScopeState) (key : String) (t : Tag),
        lookupMap s.map key = some t → t.objectsStored = none →
        identifierOf t = .ok (some DEFAULT_TAG_NAME) →
        run (f + 1) s (.tobjs key) = getAllObjects s) := by
  constructor
  · intro s s2 v h
    unfold getAllObjects at h
    split at h
    next e s3 hg => simp at h
    next r s3 hg =>
      have hr := gaoAux_ok _ s ∅ r s3 hg
      rw [Finset.empty_union] at hr
      simp only [Prod.mk.injEq] at h
      obtain ⟨h1, _⟩ := h
      injection h1 with h1
      rw [← h1, hr]
  · intro f s key t hl hos hid
    simp [run, hl, hos, hid]

/-- C4 (witness): on a scope with `a = {1}` and an untouched default
tag, resolving the default tag's objects is exactly `get_all_objects`,
and the computed value is the union `{1}`. -/
theorem gentag_c4_witness :
    run 1 sAllPair (.tobjs "all") = getAllObjects sAllPair ∧
    Value.setV {1} = .setV (allUnion sAllPair (sAllPair.map.map (fun p => p.1))) := by
  constructor
  · exact gentag_c4_thm.2 0 sAllPair "all" ⟨some "all", none, none⟩ (by decide) (by decide)
      (by decide)
  · exact gentag_c4_thm.1 sAllPair sAllPair (.setV {1}) (by decide)

/-- C5: the `id_or_expr` parenthesization heuristic is unsound: it skips
the parentheses whenever the expression merely starts with `'('` and
ends with `')'`.  The tag composed as `(a|b) | (c&d)` has expression
`"(a | b) | (c & d)"`, which is not a single alphanumeric run but also
is not parenthesized when embedded, so composing it with `& x` yields
`"(a | b) | (c & d) & x"`; under Python precedence (`&` binds tighter
than `|`) this evaluates to `(a ∪ b) ∪ ((c ∩ d) ∩ x) = {1, 2, 5}`
instead of the intended `((a ∪ b) ∪ (c ∩ d)) ∩ x = {1, 5}` — the
embedded expression's precedence is not preserved, contradicting the
stated purpose of the parenthesization. -/
theorem gentag_c5_thm :
    tagOr ⟨some "a", none, some {1}⟩ ⟨some "b", none, some {2}⟩ =
      .ok ⟨none, some "a | b", none⟩ ∧
    tagAnd ⟨some "c", none, some {5}⟩ ⟨some "d", none, some {5}⟩ =
      .ok ⟨none, some "c & d", none⟩ ∧
    tagOr ⟨none, some "a | b", none⟩ ⟨none, some "c & d", none⟩ =
      .ok ⟨none, some "(a | b) | (c & d)", none⟩ ∧
    isAlnumStr "(a | b) | (c & d)" = false ∧
    tagAnd ⟨none, some "(a | b) | (c & d)", none⟩ ⟨some "x", none, some {1, 5}⟩ =
      .ok ⟨none, some "(a | b) | (c & d) & x", none⟩ ∧
    evaluate_raw 12 sABCDX "(a | b) | (c & d) & x" = (.ok (.setV {1, 2, 5}), sABCDX) ∧
    evaluate_raw 12 sABCDX "((a | b) | (c & d)) & x" = (.ok (.setV {1, 5}), sABCDX) ∧
    (Value.setV {1, 2, 5} ≠ .setV {1, 5}) := by
  decide

/-- C6 (counterexample): `add_object` on a composite tag silently loses
the value and does not force the tag off composite status.  With
`a = {1}` and `b` defined by the expression `"a"`, adding the object `2`
to `b` succeeds but leaves the scope exactly as it was: `b` still has
its expression, its objects slot is still unset, and resolving `b`
yields `{1}`, which does not contain `2`. -/
theorem gentag_c6_cex :
    add_one 9 sCompB 2 "b" = (.ok (), sCompB) ∧
    lookupMap sCompB.map "b" = some ⟨some "b", some "a", none⟩ ∧
    run 9 sCompB (.rname "b") = (.ok (.setV {1}), sCompB) ∧
    (2 : Obj) ∉ ({1} : Finset Obj) := by
  decide

/-- C6 (amended): for a tag whose objects slot is already stored,
`add_object` inserts the value into the stored set; for a plain
non-default tag with unset objects and no truthy expression, the getter
binds a fresh set which receives the value, so the stored set becomes
`{v}`; but for a composite tag (truthy expression) the value is added to
the temporary set produced by evaluating the expression and is lost —
the tag keeps its expression and its objects slot stays unset. -/
theorem gentag_c6_thm :
    ∀ (f : Nat) (s s1 : ScopeState) (v : Obj) (n key : String) (t : Tag),
      tagLookup s n = (.ok key, s1) →
      lookupMap s1.map key = some t →
      ((∀ o, t.objectsStored = some o →
          add_one f s v n =
            (.ok (), ⟨updateMap s1.map key { t with objectsStored := some (insert v o) }⟩)) ∧
       (∀ id?, t.objectsStored = none → identifierOf t = .ok id? →
          id? ≠ some DEFAULT_TAG_NAME → truthyStr t.expression = false →
          add_one f s v n =
            (.ok (), ⟨updateMap s1.map key { t with objectsStored := some {v} }⟩)) ∧
       (t.objectsStored = none → truthyStr t.expression = true →
          ∀ r s2, add_one f s v n = (r, s2) →
          ∃ t2, lookupMap s2.map key = some t2 ∧
            t2.expression = t.expression ∧ t2.objectsStored = none)) := by
  intro f s s1 v n key t h1 h2
  refine ⟨?_, ?_, ?_⟩
  · intro o ho
    simp [add_one, h1, h2, ho]
  · intro id? hos hid hne hexp
    have hidne : ¬ (id? == some DEFAULT_TAG_NAME) = true := by
      intro hb
      have hb2 : id? = some DEFAULT_TAG_NAME := by simpa using hb
      rw [hb2] at hid
      exact hne (by simpa using hb)
    simp [add_one, h1, h2, hos, hid, hidne, hexp]
  · intro hos hexp r s2 hrun
    have hext : RegistryExtends s1 (add_one f s v n).2 := by
      unfold add_one
      simp only [h1, h2, hos]
      split
      next e hid => exact registryExtends_refl s1
      next id? hid =>
        split
        next hdef =>
          have hx := getAllObjects_extends s1
          split
          next e s3 hg =>
            rw [hg] at hx
            exact hx
          next w s3 hg =>
            rw [hg] at hx
            exact hx
        next hdef =>
          have hx := run_extends f s1 (.eraw (t.expression.getD ""))
          split
          next e s3 hg =>
            rw [hg] at hx
            exact hx
          next w s3 hg =>
            rw [hg] at hx
            exact hx
    obtain ⟨t2, hl2, _, he, ho2⟩ := hext key t h2
    have hs2 : (add_one f s v n).2 = s2 := by rw [hrun]
    rw [hs2] at hl2
    refine ⟨t2, hl2, he, ?_⟩
    rcases ho2 with hsame | ⟨_, _, htr, _⟩
    · rw [hsame, hos]
    · rw [htr] at hexp
      exact absurd hexp (by simp)

/-- C6 (witness): adding `5` to the stored tag `a` of `sAB` updates its
stored set to `{1, 5}` in place. -/
theorem gentag_c6_witness :
    add_one 3 sAB 5 "a" =
      (.ok (), ⟨updateMap sAB.map "a"
        { Tag.mk (some "a") none (some {1}) with objectsStored := some (insert 5 {1}) }⟩) :=
  (gentag_c6_thm 3 sAB sAB 5 "a" "a" ⟨some "a", none, some {1}⟩ (by decide) (by decide)).1
    {1} (by decide)

/-- C7 (counterexample): registry lookup is not total: looking up a name
with no alphanumeric characters fails, because `generate_id` raises
ValueError when nothing remains after normalization. -/
theorem gentag_c7_cex :
    tagLookup (ScopeState.mk []) "!!!" = (.error .valueError, ScopeState.mk []) ∧
    generate_id "!!!" true = .error .valueError := by
  decide

/-- C7 (amended): for every name whose collapse-normalization succeeds,
registry lookup never fails: it returns the normalized key, creates a
new tag carrying the raw name on first access (appending it to the
registry), returns the registry unchanged when the key already exists,
and any second name normalizing to the same key resolves to the very
same registry entry without further change.  Lookup does fail (with the
normalizer's ValueError) for names that normalize to nothing. -/
theorem gentag_c7_thm :
    ∀ (s : ScopeState) (n key : String),
      generate_id n true = .ok key →
      ((tagLookup s n).1 = .ok key ∧
       (lookupMap s.map key = none →
          tagLookup s n = (.ok key, ⟨s.map ++ [(key, ⟨some n, none, none⟩)]⟩)) ∧
       (∀ t, lookupMap s.map key = some t → tagLookup s n = (.ok key, s)) ∧
       (∀ n2, generate_id n2 true = .ok key →
          tagLookup ((tagLookup s n).2) n2 = (.ok key, (tagLookup s n).2))) := by
  intro s n key h
  refine ⟨?_, ?_, ?_, ?_⟩
  · unfold tagLookup
    simp only [h]
    split
    · rfl
    · rfl
  · intro hnone
    simp [tagLookup, h, hnone]
  · intro t ht
    simp [tagLookup, h, ht]
  · intro n2 h2
    cases hl : lookupMap s.map key with
    | some t =>
      simp [tagLookup, h, h2, hl]
    | none =>
      have hfresh : lookupMap (s.map ++ [(key, ⟨some n, none, none⟩)]) key =
          some ⟨some n, none, none⟩ := lookupMap_append_fresh _ hl
      simp [tagLookup, h, h2, hl, hfresh]

/-- C7 (witness): `"Foo Bar"` and `"foo-bar"` both normalize to the key
`"foobar"`; looking up the first creates the tag and looking up the
second returns the same registry entry, leaving the registry as it
was. -/
theorem gentag_c7_witness :
    (tagLookup (ScopeState.mk []) "Foo Bar").1 = .ok "foobar" ∧
    tagLookup ((tagLookup (ScopeState.mk []) "Foo Bar").2) "foo-bar" =
      (.ok "foobar", (tagLookup (ScopeState.mk []) "Foo Bar").2) := by
  have h := gentag_c7_thm (ScopeState.mk []) "Foo Bar" "foobar" (by decide)
  exact ⟨h.1, h.2.2.2 "foo-bar" (by decide)⟩

/-- C8 (counterexample): the value computed for the default tag is not
memoized.  On a scope with `a = {1}` and an untouched default tag, the
first resolution of `'all'` yields `{1}` and binds nothing to the tag
(its objects slot is still unset afterwards); after adding the object
`2` to `a`, resolving `'all'` again yields `{1, 2}` — the recomputation
reflects the mutation, so no memoization took place. -/
theorem gentag_c8_cex :
    run 2 sAllPair (.tobjs "all") = (.ok (.setV {1}), sAllPair) ∧
    lookupMap ((run 2 sAllPair (.tobjs "all")).2).map "all" =
      some ⟨some "all", none, none⟩ ∧
    (run 2 ((add_one 2 sAllPair 2 "a").2) (.tobjs "all")).1 = .ok (.setV {1, 2}) ∧
    (Value.setV {1, 2} ≠ .setV {1}) := by
  refine ⟨by decide, by decide, ?_, by decide⟩
  have h1 : (run 2 ((add_one 2 sAllPair 2 "a").2) (.tobjs "all")).1 =
      .ok (.setV (∅ ∪ insert 2 {1})) := rfl
  have h2 : (∅ ∪ insert 2 {1} : Finset Obj) = {1, 2} := by decide
  rw [h1, h2]

/-- C8 (amended): resolving a tag's objects memoizes only in the plain
case, where a fresh empty set is bound to the tag for future mutation;
a composite tag's objects and the default tag's objects are recomputed
from current inputs on every access — after the access their objects
slot is still unset, so later mutations of the inputs are reflected. -/
theorem gentag_c8_thm :
    ∀ (f : Nat) (s : ScopeState) (key : String) (t : Tag),
      lookupMap s.map key = some t → t.objectsStored = none →
      ((∀ id?, identifierOf t = .ok id? → ¬ (id? == some DEFAULT_TAG_NAME) = true →
          truthyStr t.expression = false →
          run (f + 1) s (.tobjs key) =
            (.ok (.setV ∅), ⟨updateMap s.map key { t with objectsStored := some ∅ }⟩)) ∧
       (truthyStr t.expression = true →
          ∀ r s2, run (f + 1) s (.tobjs key) = (r, s2) →
          ∃ t2, lookupMap s2.map key = some t2 ∧ t2.expression = t.expression ∧
            t2.objectsStored = none) ∧
       (identifierOf t = .ok (some DEFAULT_TAG_NAME) →
          ∀ r s2, run (f + 1) s (.tobjs key) = (r, s2) →
          ∃ t2, lookupMap s2.map key = some t2 ∧ t2.objectsStored = none)) := by
  intro f s key t hl hos
  refine ⟨?_, ?_, ?_⟩
  · intro id? hid hidne hexp
    simp [run, hl, hos, hid, hidne, hexp]
  · intro hexp r s2 hrun
    obtain ⟨t2, hl2, _, he, ho2⟩ := run_extends (f + 1) s (.tobjs key) key t hl
    have hs2 : (run (f + 1) s (.tobjs key)).2 = s2 := by rw [hrun]
    rw [hs2] at hl2
    refine ⟨t2, hl2, he, ?_⟩
    rcases ho2 with hsame | ⟨_, _, htr, _⟩
    · rw [hsame, hos]
    · rw [htr] at hexp
      exact absurd hexp (by simp)
  · intro hid r s2 hrun
    obtain ⟨t2, hl2, _, _, ho2⟩ := run_extends (f + 1) s (.tobjs key) key t hl
    have hs2 : (run (f + 1) s (.tobjs key)).2 = s2 := by rw [hrun]
    rw [hs2] at hl2
    refine ⟨t2, hl2, ?_⟩
    rcases ho2 with hsame | ⟨_, _, _, hidn⟩
    · rw [hsame, hos]
    · exact absurd hid hidn

/-- C8 (witness): resolving the plain unset tag `b` of `sCompB` is
impossible (it is composite), so use a fresh plain tag: on the scope
where only `a = {1}` exists and a plain tag `p` was just created,
resolving `p` binds the empty set to it (the memoization step). -/
theorem gentag_c8_witness :
    run 1 (ScopeState.mk [("p", ⟨some "p", none, none⟩)]) (.tobjs "p") =
      (.ok (.setV ∅),
        ⟨updateMap [("p", ⟨some "p", none, none⟩)] "p"
          { Tag.mk (some "p") none none with objectsStored := some ∅ }⟩) :=
  (gentag_c8_thm 0 (ScopeState.mk [("p", ⟨some "p", none, none⟩)]) "p"
    ⟨some "p", none, none⟩ (by decide) (by decide)).1 (some "p") (by decide) (by decide)
    (by decide)

/-- C9: `generate_id` behaves as specified on the four documented
examples, and every identifier it returns is nonempty and does not start
with a digit (a leading underscore is prepended when the stripped result
starts with a digit). -/
theorem gentag_c9_thm :
    generate_id "Some random name!" false = .ok "some_random_name" ∧
    generate_id "Some random name!" true = .ok "somerandomname" ∧
    generate_id "42" false = .ok "_42" ∧
    generate_id "" true = .error .valueError ∧
    (∀ (v : String) (b : Bool) (r : String), generate_id v b = .ok r →
      r.data ≠ [] ∧ ∀ c cs, r.data = c :: cs → isDigitChar c = false) := by
  refine ⟨by decide, by decide, by decide, by decide, ?_⟩
  intro v b r h
  unfold generate_id at h
  split at h
  next => simp at h
  next c cs _ =>
    by_cases hd : isDigitChar c = true
    · rw [if_pos hd] at h
      injection h with h
      subst h
      refine ⟨List.cons_ne_nil _ _, ?_⟩
      intro c2 cs2 hdat
      have hdat2 : '_' :: c :: cs = c2 :: cs2 := hdat
      injection hdat2 with h1 _
      rw [← h1]
      decide
    · rw [if_neg hd] at h
      injection h with h
      subst h
      refine ⟨List.cons_ne_nil _ _, ?_⟩
      intro c2 cs2 hdat
      have hdat2 : c :: cs = c2 :: cs2 := hdat
      injection hdat2 with h1 _
      rw [← h1]
      simpa using hd

/-- C9 (witness): the invariant instantiated at the normalization of
`"Some random name!"`: the returned identifier is nonempty and does not
start with a digit. -/
theorem gentag_c9_witness :
    ("some_random_name" : String).data ≠ [] ∧
    ∀ c cs, ("some_random_name" : String).data = c :: cs → isDigitChar c = false :=
  gentag_c9_thm.2.2.2.2 "Some random name!" false "some_random_name" (by decide)

/-- C10: building a composite tag with `compose` (hence with the
`& | - ^` operators, which delegate to it) never touches the scope's
registry: the scope comes out identical, so registry iteration,
`get_all_objects` and the resolution of any registered tag (the default
tag included) are unchanged; and the composed tag is anonymous with an
unset objects slot and a truthy (nonempty) expression, so even the
`get_all_objects` loop would skip it. -/
theorem gentag_c10_thm :
    ∀ (s : ScopeState) (t1 t2 : Tag) (op : String),
      (composeInScope s t1 op t2).2 = s ∧
      ((composeInScope s t1 op t2).2).map = s.map ∧
      getAllObjects ((composeInScope s t1 op t2).2) = getAllObjects s ∧
      (∀ (f : Nat) (key : String),
        run f ((composeInScope s t1 op t2).2) (.tobjs key) = run f s (.tobjs key)) ∧
      (∀ tag, compose t1 op t2 = .ok tag →
        tag.name = none ∧ tag.objectsStored = none ∧ truthyStr tag.expression = true) := by
  intro s t1 t2 op
  refine ⟨rfl, rfl, rfl, fun f key => rfl, ?_⟩
  intro tag h
  unfold compose at h
  split at h
  next => simp at h
  next e1 he1 =>
    split at h
    next => simp at h
    next e2 he2 =>
      injection h with h
      subst h
      refine ⟨rfl, rfl, ?_⟩
      simp only [truthyStr, bne_iff_ne, ne_eq]
      intro hc
      have hlen := congrArg String.length hc
      simp [String.length_append] at hlen
      exact absurd hlen.1.2 (by decide)

/-- C10 (witness): composing the tags `a` and `b` of `sAB` with `&`
leaves the scope untouched and produces the anonymous composite tag
with expression `"a & b"`. -/
theorem gentag_c10_witness :
    (composeInScope sAB ⟨some "a", none, some {1}⟩ "&" ⟨some "b", none, some {2}⟩).2 = sAB ∧
    ((Tag.mk none (some "a & b") none).name = none ∧
      (Tag.mk none (some "a & b") none).objectsStored = none ∧
      truthyStr (Tag.mk none (some "a & b") none).expression = true) := by
  have h := gentag_c10_thm sAB ⟨some "a", none, some {1}⟩ ⟨some "b", none, some {2}⟩ "&"
  exact ⟨h.1, h.2.2.2.2 ⟨none, some "a & b", none⟩ (by decide)⟩
